import Mathlib

/-!
Verification of the `urlshort` redirect package.

The Go package builds `http.Handler`s that redirect a request when its URL
path is a key of a path-to-URL table, and delegate to a fallback handler
otherwise.  The table is supplied directly (`MapHandler`), decoded from YAML
or JSON bytes (`YamlHandler`, `JsonHandler`), or fetched from a MongoDB
collection (`DbHandler`).

Modelling conventions:
* a Go `map[string]string` is modelled as an association list (`GoMap`) whose
  keys stay unique because insertion (`mapInsert`) overwrites in place, which
  is exactly how sequential Go map assignment behaves;
* an `http.Handler` is a function from a request to the response it writes;
  `http.Redirect(w, r, url, code)` is modelled as producing the response
  `Response.redirectResp code url`, whose `location` field stands for the
  `Location` header that `http.Redirect` sets;
* a request carries the parsed URL; `r.URL.Path` is `req.url.path`, and the
  query component sits separately in `req.url.rawQuery`, as in `net/url`;
* the YAML and JSON unmarshallers are external library collaborators
  (`yaml.Unmarshal`, `json.Unmarshal`); they are abstracted as arbitrary
  functions from bytes to an ordered record list or a decode error, which is
  the interface the package code consumes;
* Go's `(value, error)` returns with a `nil` value on error are modelled as
  `Except`: `.error e` is `(nil, err)`, `.ok v` is `(v, nil)`.
-/

/-- Go `[]byte`. -/
abbrev Bytes := List UInt8

/-- A decode failure reported by `yaml.Unmarshal` or `json.Unmarshal`;
only its presence and identity matter to the package code. -/
structure DecodeError where
  msg : String
deriving DecidableEq, Repr

/-- An error reported by the record store (MongoDB driver). -/
structure StoreError where
  msg : String
deriving DecidableEq, Repr

/-- The `Redirect` struct: `Path` and `URL` string fields
(yaml/json keys `path` and `url`). -/
structure Redirect where
  path : String
  url : String
deriving DecidableEq, Repr

/-- The parsed URL of a request, as in `net/url`: the path component and the
query component are separate fields, so `r.URL.Path` never contains the
query string. -/
structure ReqURL where
  path : String
  rawQuery : String
deriving DecidableEq, Repr

/-- An incoming `http.Request`, reduced to the fields the package reads. -/
structure Request where
  method : String
  url : ReqURL
deriving DecidableEq, Repr

/-- The response a handler writes to its `http.ResponseWriter`:
either a redirect (status code plus the `Location` header value set by
`http.Redirect`) or an ordinary body response (as a fallback like the
"Hello, world" mux produces). -/
inductive Response where
  | redirectResp (status : Nat) (location : String)
  | bodyResp (status : Nat) (body : String)
deriving DecidableEq, Repr

/-- An `http.Handler` / `http.HandlerFunc`: given a request, it determines
the response written to the response writer. -/
abbrev Handler := Request → Response

/-- `http.StatusFound`. -/
def httpStatusFound : Nat := 302

/-- `http.Redirect(w, r, url, code)`: writes status `code` and a
`Location: url` header. -/
def httpRedirect (r : Request) (url : String) (code : Nat) : Response :=
  Response.redirectResp code url

/-- A Go `map[string]string`, as the association list of its entries.
Keys are unique for every map built by the package because `mapInsert`
overwrites the existing entry for a key in place. -/
abbrev GoMap := List (String × String)

/-- Go map assignment `m[k] = v`: overwrite the entry for `k` if present,
otherwise add one. -/
def mapInsert (m : GoMap) (k v : String) : GoMap :=
  match m with
  | [] => [(k, v)]
  | (k0, v0) :: rest =>
    if k0 = k then (k, v) :: rest else (k0, v0) :: mapInsert rest k v

/-- Go map lookup `m[k]` in its comma-ok form: `some v` when the key is
present, `none` otherwise. -/
def mapLookup (m : GoMap) (k : String) : Option String :=
  match m with
  | [] => none
  | (k0, v0) :: rest => if k0 = k then some v0 else mapLookup rest k

/-- `MapHandler(pathsToUrls, fallback)`: the returned handler reads
`r.URL.Path`, redirects with `http.StatusFound` to the mapped URL when the
path is a key of the map, and otherwise calls `fallback.ServeHTTP(w, r)`
with the original request. -/
def MapHandler (pathsToUrls : GoMap) (fallback : Handler) : Handler :=
  fun r =>
    let path := r.url.path
    match mapLookup pathsToUrls path with
    | some url => httpRedirect r url httpStatusFound
    | none => fallback r

/-- `RedirectsToMap`: fold an ordered record slice into a `map[string]string`
by sequential assignment `pathsToUrls[redirect.Path] = redirect.URL`. -/
def RedirectsToMap (redirects : List Redirect) : GoMap :=
  redirects.foldl (fun m r => mapInsert m r.path r.url) []

lemma mapLookup_mapInsert (m : GoMap) (k v q : String) :
    mapLookup (mapInsert m k v) q = if q = k then some v else mapLookup m q := by
  induction m with
  | nil =>
    by_cases h : q = k
    · subst h
      simp [mapInsert, mapLookup]
    · simp [mapInsert, mapLookup, h, Ne.symm h]
  | cons hd tl ih =>
    obtain ⟨k0, v0⟩ := hd
    by_cases hk : k0 = k
    · subst hk
      by_cases hq : k0 = q
      · subst hq
        simp [mapInsert, mapLookup]
      · simp [mapInsert, mapLookup, hq, Ne.symm hq]
    · by_cases hq : k0 = q
      · subst hq
        have hne : ¬ k0 = k := hk
        simp [mapInsert, mapLookup, hne, Ne.symm hne]
      · simp [mapInsert, mapLookup, hk, hq, ih]

lemma mapInsert_of_lookup_eq (m : GoMap) (k v : String)
    (h : mapLookup m k = some v) : mapInsert m k v = m := by
  induction m with
  | nil => simp [mapLookup] at h
  | cons hd tl ih =>
    obtain ⟨k0, v0⟩ := hd
    by_cases hk : k0 = k
    · subst hk
      simp only [mapLookup, if_pos, Option.some.injEq] at h
      simp [mapInsert, h]
    · simp only [mapLookup, if_neg hk] at h
      simp [mapInsert, hk, ih h]

lemma mem_of_mapLookup_eq_some {m : GoMap} {k v : String}
    (h : mapLookup m k = some v) : (k, v) ∈ m := by
  induction m with
  | nil => simp [mapLookup] at h
  | cons hd tl ih =>
    obtain ⟨k0, v0⟩ := hd
    by_cases hk : k0 = k
    · subst hk
      simp only [mapLookup, if_pos, Option.some.injEq] at h
      simp [h]
    · simp only [mapLookup, if_neg hk] at h
      exact List.mem_cons_of_mem _ (ih h)

/-- A structured-text decoder: from raw bytes to an ordered record slice or a
decode error.  `yaml.Unmarshal` and `json.Unmarshal` are external library
collaborators, so the package code is verified for every decoder of this
shape. -/
abbrev Decoder := Bytes → Except DecodeError (List Redirect)

/-- `ParseYaml(yml, v)`: delegates to `yaml.Unmarshal`, here the abstract
decoder `yamlUnmarshal`; the error value is returned unchanged and on success
`v` holds the decoded record slice. -/
def ParseYaml (yamlUnmarshal : Decoder) (yml : Bytes) :
    Except DecodeError (List Redirect) :=
  yamlUnmarshal yml

/-- `ParseJson(jsn, v)`: delegates to `json.Unmarshal`, here the abstract
decoder `jsonUnmarshal`. -/
def ParseJson (jsonUnmarshal : Decoder) (jsn : Bytes) :
    Except DecodeError (List Redirect) :=
  jsonUnmarshal jsn

/-- `YamlHandler(yml, fallback)`: parse the bytes with `ParseYaml`; on error
return `(nil, err)` (modelled `.error err`), otherwise fold the records into
the table and return `MapHandler` over it. -/
def YamlHandler (yamlUnmarshal : Decoder) (yml : Bytes) (fallback : Handler) :
    Except DecodeError Handler :=
  match ParseYaml yamlUnmarshal yml with
  | .error err => .error err
  | .ok redirects => .ok (MapHandler (RedirectsToMap redirects) fallback)

/-- `JsonHandler(json, fallback)`: parse the bytes with `ParseJson`; on error
return `(nil, err)`, otherwise fold the records into the table and return
`MapHandler` over it. -/
def JsonHandler (jsonUnmarshal : Decoder) (jsn : Bytes) (fallback : Handler) :
    Except DecodeError Handler :=
  match ParseJson jsonUnmarshal jsn with
  | .error err => .error err
  | .ok redirects => .ok (MapHandler (RedirectsToMap redirects) fallback)

/-- The `bson.M` filter passed to `Find`; `DbHandler` always passes the empty
(match-everything) filter `bson.M{}`. -/
inductive BsonFilter where
  | matchAll
deriving DecidableEq, Repr

/-- The `RedirectoryDatabase` wrapper around the `redirect` MongoDB
collection, viewed through the single query the package issues.  The
collection may be mutated externally between queries, so `find` is indexed by
the time of the query: time `0` is handler construction, time `i ≥ 1` the
moment request `i` is being served.  `find f t` is the record slice the
collection holds at time `t` (the filter `matchAll` selects all of it), or a
driver/unmarshal error. -/
structure RedirectoryDatabase where
  find : BsonFilter → Nat → Except StoreError (List Redirect)

/-- `DbHandler(ctx, r, fallback)`: calls `r.Find(ctx, &redirects, bson.M{})`
once, at construction time (time `0`); on error returns `(nil, err)`,
otherwise folds the fetched records into a table and returns `MapHandler`
over that table.  The returned closure holds the finished table and no
reference to `r`, so it never queries the store again.  (`ctx` carries no
data the model needs.) -/
def DbHandler (r : RedirectoryDatabase) (fallback : Handler) :
    Except StoreError Handler :=
  match r.find BsonFilter.matchAll 0 with
  | .error err => .error err
  | .ok redirects => .ok (MapHandler (RedirectsToMap redirects) fallback)

/-- The per-request behavior of the handler `DbHandler` returns: serving
request `req` at time `t` is just applying the constructed closure, which
ignores `t`. -/
def dbHandlerServe (r : RedirectoryDatabase) (fallback : Handler)
    (t : Nat) (req : Request) : Except StoreError Response :=
  match DbHandler r fallback with
  | .error err => .error err
  | .ok h =>
    let _ := t
    .ok (h req)

/-- Modelled from the spec: the record-store-backed handler the spec
describes, whose per-request behavior begins with a full-table refresh —
serving request `req` at time `t` queries the store at time `t` with the
match-everything filter, rebuilds the table, and only then applies the
lookup-and-redirect semantics; a query failure at time `t` surfaces as a
failed request. -/
def DbHandlerSpec (r : RedirectoryDatabase) (fallback : Handler)
    (t : Nat) (req : Request) : Except StoreError Response :=
  match r.find BsonFilter.matchAll t with
  | .error err => .error err
  | .ok redirects => .ok (MapHandler (RedirectsToMap redirects) fallback req)

/-- A Go `interface{}` value as it occurs in the package: the zero value
`nil` that `make([]interface{}, n)` fills the slice with, or a boxed
`Redirect`. -/
inductive InterfaceVal where
  | nil
  | ofRedirect (r : Redirect)
deriving DecidableEq, Repr

/-- `RedirectsToArrayInterface`: allocate `s := make([]interface{}, len)`
(all `nil`), then `for i, v := range redirects { s[i] = v }`. -/
def RedirectsToArrayInterface (redirects : List Redirect) : List InterfaceVal :=
  redirects.enum.foldl (fun s p => s.set p.1 (InterfaceVal.ofRedirect p.2))
    (List.replicate redirects.length InterfaceVal.nil)

lemma not_mem_of_mapLookup_eq_none {m : GoMap} {k : String}
    (h : mapLookup m k = none) (v : String) : (k, v) ∉ m := by
  induction m with
  | nil => simp
  | cons hd tl ih =>
    obtain ⟨k0, v0⟩ := hd
    by_cases hk : k0 = k
    · simp [mapLookup, hk] at h
    · simp only [mapLookup, if_neg hk] at h
      intro hmem
      rcases List.mem_cons.mp hmem with heq | hmem2
      · exact hk (congrArg Prod.fst heq).symm
      · exact ih h hmem2

lemma redirectsToMap_append (rs : List Redirect) (r : Redirect) :
    RedirectsToMap (rs ++ [r]) = mapInsert (RedirectsToMap rs) r.path r.url := by
  simp [RedirectsToMap, List.foldl_append]

lemma mapLookup_redirectsToMap (rs : List Redirect) (p : String) :
    mapLookup (RedirectsToMap rs) p
      = Option.map Redirect.url (List.find? (fun x => x.path == p) rs.reverse) := by
  induction rs using List.reverseRecOn with
  | nil => simp [RedirectsToMap, mapLookup]
  | append_singleton rs r ih =>
    rw [redirectsToMap_append, mapLookup_mapInsert]
    have hrev : (rs ++ [r]).reverse = r :: rs.reverse := by simp
    rw [hrev]
    by_cases h : p = r.path
    · subst h
      rw [if_pos rfl, List.find?_cons_of_pos _ (by simp)]
      rfl
    · rw [if_neg h, List.find?_cons_of_neg _ (by simpa using Ne.symm h)]
      exact ih

lemma take_succ_set (s : List InterfaceVal) (k : Nat) (a : InterfaceVal)
    (hk : k < s.length) : (s.set k a).take (k + 1) = s.take k ++ [a] := by
  rw [List.set_eq_take_cons_drop a hk, List.take_append_eq_append_take]
  have hlen : (s.take k).length = k := by
    simp [List.length_take, Nat.min_eq_left hk.le]
  rw [List.take_take]
  have h1 : min (k + 1) k = k := by omega
  rw [h1, hlen]
  have h2 : k + 1 - k = 1 := by omega
  rw [h2]
  simp

lemma foldl_set_enumFrom (rs : List Redirect) : ∀ (k : Nat) (s : List InterfaceVal),
    s.length = k + rs.length →
    (rs.enumFrom k).foldl (fun s p => s.set p.1 (InterfaceVal.ofRedirect p.2)) s
      = s.take k ++ rs.map InterfaceVal.ofRedirect := by
  induction rs with
  | nil =>
    intro k s h
    simp only [List.length_nil, Nat.add_zero] at h
    simp [h.symm ▸ List.take_length (l := s)]
  | cons r rest ih =>
    intro k s h
    simp only [List.length_cons] at h
    have hk : k < s.length := by omega
    rw [List.enumFrom_cons, List.foldl_cons]
    have hlen : (s.set k (InterfaceVal.ofRedirect r)).length = (k + 1) + rest.length := by
      simp [List.length_set]
      omega
    rw [ih (k + 1) _ hlen, take_succ_set s k _ hk]
    simp

lemma redirectsToArrayInterface_eq_map (rs : List Redirect) :
    RedirectsToArrayInterface rs = rs.map InterfaceVal.ofRedirect := by
  unfold RedirectsToArrayInterface
  rw [List.enum_eq_enumFrom, foldl_set_enumFrom rs 0 _ (by simp)]
  simp

/-- A concrete fallback handler used in the concrete instances below, like the
default mux of the tests: it answers every request with 200 "Hello, world". -/
def fallbackEx : Handler := fun _ => Response.bodyResp 200 "Hello, world"

/-- Claim C1: for every table containing path `P` mapped to destination `D`
and every fallback `F`, the handler `MapHandler(T, F)` on a request whose
path is `P` responds with status 302 and `Location: D`, regardless of `F`,
and does nothing else. -/
theorem mapHandler_hit_redirects (T : GoMap) (F : Handler) (P D : String)
    (req : Request) (hpath : req.url.path = P) (hT : mapLookup T P = some D) :
    MapHandler T F req = Response.redirectResp 302 D := by
  simp [MapHandler, hpath, hT, httpRedirect, httpStatusFound]

theorem mapHandler_hit_redirects_witness :
    MapHandler [("/redirect", "/netapp")] fallbackEx
        ⟨"GET", ⟨"/redirect", ""⟩⟩ = Response.redirectResp 302 "/netapp" :=
  mapHandler_hit_redirects _ fallbackEx "/redirect" "/netapp" _ rfl (by decide)

/-- Claim C2: for every table `T`, fallback `F`, and path `P` not a key of
`T`, the handler `MapHandler(T, F)` on a request whose path is `P` forwards
the original request unchanged to `F` and produces exactly the response `F`
alone would produce. -/
theorem mapHandler_miss_delegates (T : GoMap) (F : Handler) (P : String)
    (req : Request) (hpath : req.url.path = P) (hT : mapLookup T P = none) :
    MapHandler T F req = F req := by
  simp [MapHandler, hpath, hT]

theorem mapHandler_miss_delegates_witness :
    MapHandler [("/redirect", "/netapp")] fallbackEx
        ⟨"GET", ⟨"/unused-path", ""⟩⟩ = Response.bodyResp 200 "Hello, world" :=
  mapHandler_miss_delegates _ fallbackEx "/unused-path" _ rfl (by decide)

/-- Claim C9: the lookup of `MapHandler` is total over every path string
(including the empty string) with no error conditions: exactly one of the
two outcomes occurs — the path is a key of the table (exact string equality,
so no prefix matching, no trailing-slash normalization, no query-string
stripping, the query living in `rawQuery` outside the key) and the response
is the 302 redirect to the mapped destination, or the path is not a key and
the response is exactly the fallback's. -/
theorem mapHandler_total_exact_match (T : GoMap) (F : Handler) (req : Request) :
    ((∃ D, mapLookup T req.url.path = some D ∧ (req.url.path, D) ∈ T ∧
        MapHandler T F req = Response.redirectResp 302 D)
      ∧ ¬ (mapLookup T req.url.path = none ∧ MapHandler T F req = F req))
    ∨ ((mapLookup T req.url.path = none ∧ (∀ D, (req.url.path, D) ∉ T) ∧
        MapHandler T F req = F req)
      ∧ ¬ ∃ D, mapLookup T req.url.path = some D) := by
  cases h : mapLookup T req.url.path with
  | some D =>
    left
    refine ⟨⟨D, rfl, mem_of_mapLookup_eq_some h, ?_⟩, ?_⟩
    · simp [MapHandler, h, httpRedirect, httpStatusFound]
    · rintro ⟨h1, -⟩
      simp [h] at h1
  | none =>
    right
    refine ⟨⟨rfl, fun D => not_mem_of_mapLookup_eq_none h D, ?_⟩, ?_⟩
    · simp [MapHandler, h]
    · rintro ⟨D, hD⟩
      simp [h] at hD

/-- Claim C4: `RedirectsToMap` folds the record sequence left-to-right with
last-write-wins — for every sequence and path, the table's value is the URL
of the last record in sequence order carrying that path — and in particular
the two-record sequence `[(/a, /x), (/a, /y)]` yields exactly the one-entry
table mapping `/a` to `/y`. -/
theorem redirectsToMap_last_write_wins :
    (∀ (rs : List Redirect) (p : String),
      mapLookup (RedirectsToMap rs) p
        = Option.map Redirect.url (List.find? (fun x => x.path == p) rs.reverse))
    ∧ RedirectsToMap [⟨"/a", "/x"⟩, ⟨"/a", "/y"⟩] = [("/a", "/y")] :=
  ⟨mapLookup_redirectsToMap, by decide⟩

/-- Claim C8: the Table Builder is idempotent with respect to exact
duplicates: if `r` already occurs in `rs` as the last record carrying its
path, then appending an exact copy of `r` leaves the built table unchanged. -/
theorem redirectsToMap_duplicate_append (rs : List Redirect) (r : Redirect)
    (hlast : List.find? (fun x => x.path == r.path) rs.reverse = some r) :
    RedirectsToMap (rs ++ [r]) = RedirectsToMap rs := by
  rw [redirectsToMap_append]
  apply mapInsert_of_lookup_eq
  rw [mapLookup_redirectsToMap, hlast]
  rfl

theorem redirectsToMap_duplicate_append_witness :
    (List.find? (fun x => x.path == (Redirect.mk "/a" "/y").path)
        ([Redirect.mk "/a" "/x", Redirect.mk "/a" "/y"]).reverse
      = some (Redirect.mk "/a" "/y"))
    ∧ RedirectsToMap ([Redirect.mk "/a" "/x", Redirect.mk "/a" "/y"]
        ++ [Redirect.mk "/a" "/y"])
      = RedirectsToMap [Redirect.mk "/a" "/x", Redirect.mk "/a" "/y"] :=
  ⟨by decide, redirectsToMap_duplicate_append _ _ (by decide)⟩

/-- Claim C5: the two decoders followed by the Table Builder are functionally
interchangeable — whenever the Format A bytes and the Format B bytes decode
to the same ordered record list, the built tables are identical, and the two
decoder-backed factories return the very same handler. -/
theorem decoders_interchangeable (yamlUnmarshal jsonUnmarshal : Decoder)
    (a b : Bytes) (rsA rsB : List Redirect) (F : Handler)
    (hA : ParseYaml yamlUnmarshal a = .ok rsA)
    (hB : ParseJson jsonUnmarshal b = .ok rsB)
    (hsame : rsA = rsB) :
    RedirectsToMap rsA = RedirectsToMap rsB
      ∧ YamlHandler yamlUnmarshal a F = JsonHandler jsonUnmarshal b F := by
  subst hsame
  exact ⟨rfl, by simp [YamlHandler, JsonHandler, hA, hB]⟩

/-- A Format A decoder result on the record list of the Task 1 yaml prefix,
used as a concrete decoder instance. -/
def yamlDecoderEx : Decoder := fun _ => Except.ok [Redirect.mk "/urlshort" "/dest"]

/-- A Format B decoder result on the same record list, used as a concrete
decoder instance. -/
def jsonDecoderEx : Decoder := fun _ => Except.ok [Redirect.mk "/urlshort" "/dest"]

theorem decoders_interchangeable_witness :
    ParseYaml yamlDecoderEx [] = .ok [Redirect.mk "/urlshort" "/dest"]
    ∧ ParseJson jsonDecoderEx [] = .ok [Redirect.mk "/urlshort" "/dest"]
    ∧ (RedirectsToMap [Redirect.mk "/urlshort" "/dest"]
          = RedirectsToMap [Redirect.mk "/urlshort" "/dest"]
        ∧ YamlHandler yamlDecoderEx [] fallbackEx
          = JsonHandler jsonDecoderEx [] fallbackEx) :=
  ⟨rfl, rfl, decoders_interchangeable yamlDecoderEx jsonDecoderEx [] []
    _ _ fallbackEx rfl rfl rfl⟩

/-- Claim C6: when decoding fails, `YamlHandler` and `JsonHandler` propagate
the `DecodeError` unchanged to the caller and produce no handler (the
handler result is `nil`); the decode fails atomically, so no table is built
from a partial decode. -/
theorem handlerFactories_propagate_decode_error
    (yamlUnmarshal jsonUnmarshal : Decoder) (yb jb : Bytes) (F : Handler)
    (e1 e2 : DecodeError)
    (hY : ParseYaml yamlUnmarshal yb = .error e1)
    (hJ : ParseJson jsonUnmarshal jb = .error e2) :
    YamlHandler yamlUnmarshal yb F = .error e1
      ∧ JsonHandler jsonUnmarshal jb F = .error e2 := by
  refine ⟨?_, ?_⟩ <;> simp [YamlHandler, JsonHandler, hY, hJ]

/-- A decoder that always fails, as `yaml.Unmarshal` does on bytes with
inconsistent nesting. -/
def failingDecoderEx : Decoder :=
  fun _ => Except.error (DecodeError.mk "found a tab character that violates indentation")

theorem handlerFactories_propagate_decode_error_witness :
    ParseYaml failingDecoderEx []
        = .error (DecodeError.mk "found a tab character that violates indentation")
    ∧ ParseJson failingDecoderEx []
        = .error (DecodeError.mk "found a tab character that violates indentation")
    ∧ (YamlHandler failingDecoderEx [] fallbackEx
          = .error (DecodeError.mk "found a tab character that violates indentation")
        ∧ JsonHandler failingDecoderEx [] fallbackEx
          = .error (DecodeError.mk "found a tab character that violates indentation")) :=
  ⟨rfl, rfl, handlerFactories_propagate_decode_error failingDecoderEx
    failingDecoderEx [] [] fallbackEx _ _ rfl rfl⟩

/-- Claim C10: `RedirectsToArrayInterface` returns a slice of the same length
whose element at every index is the boxed input record at that index — order
and content preserved, nothing added, dropped, or modified (and in
particular no `nil` slot of the allocated slice is left over). -/
theorem redirectsToArrayInterface_preserves (rs : List Redirect) :
    (RedirectsToArrayInterface rs).length = rs.length
      ∧ ∀ i : Nat, (RedirectsToArrayInterface rs)[i]?
          = Option.map InterfaceVal.ofRedirect rs[i]? := by
  rw [redirectsToArrayInterface_eq_map]
  exact ⟨by simp, fun i => by simp⟩

/-- A store whose `redirect` collection is empty at handler construction
(time 0) and holds the record `/a → /x` from then on — an administrative
insert happening between construction and the first request. -/
def staleStoreEx : RedirectoryDatabase :=
  ⟨fun _ t => if t = 0 then Except.ok [] else Except.ok [Redirect.mk "/a" "/x"]⟩

/-- A store that answers with `/a → /x` at handler construction (time 0)
and fails with a driver error on every later query. -/
def failingStoreEx : RedirectoryDatabase :=
  ⟨fun _ t => if t = 0 then Except.ok [Redirect.mk "/a" "/x"]
    else Except.error (StoreError.mk "server selection timeout")⟩

/-- A request for path `/a`. -/
def reqA : Request := ⟨"GET", ⟨"/a", ""⟩⟩

/-- Claim C3 (code bug): `DbHandler` queries the store once, inside the
factory, and the returned closure serves the table frozen at construction —
it does not refresh per request.  Concretely: against `staleStoreEx`, the
handler the code builds answers the request for `/a` served at time 1 with
the fallback response (its table was built from the empty time-0
collection), while the per-request-refresh behavior the spec (and the
repository's own Task 4 comment) describes would query the store at time 1
and redirect `/a` to `/x`. -/
theorem dbHandler_fetches_once_not_per_request :
    dbHandlerServe staleStoreEx fallbackEx 1 reqA
        = Except.ok (Response.bodyResp 200 "Hello, world")
      ∧ DbHandlerSpec staleStoreEx fallbackEx 1 reqA
        = Except.ok (Response.redirectResp 302 "/x") :=
  ⟨rfl, rfl⟩

/-- Claim C7 (code bug): a store failure at request-serving time is not
surfaced as a failed request, because the handler `DbHandler` builds never
queries the store again: it silently serves the mapping data retrieved at
construction.  Concretely: against `failingStoreEx`, whose every
post-construction query fails, the code's handler still answers the request
for `/a` served at time 1 with the 302 redirect built from the time-0
snapshot, while the spec's per-request behavior would surface the store
error to that request's caller. -/
theorem dbHandler_serves_stale_on_store_failure :
    dbHandlerServe failingStoreEx fallbackEx 1 reqA
        = Except.ok (Response.redirectResp 302 "/x")
      ∧ DbHandlerSpec failingStoreEx fallbackEx 1 reqA
        = Except.error (StoreError.mk "server selection timeout") :=
  ⟨rfl, rfl⟩
